import Mathlib

/-!
# Verification of the contact-book repository (`classes.py`, `main.py`)

Shallow embedding of the address-book program: field validation (`Phone`,
`Birthday`), `Record`, `AddressBook`, the controller class `Contact` and the
command loop of `main.py`.  Dates are modelled as proleptic-Gregorian
`year/month/day` triples, matching Python's `datetime.date`.  Python
exceptions are modelled with `Except`; an error value carries the message and
the directory state at the moment of the raise (the code never mutates the
directory before one of its raise points, which the embedding makes explicit).
-/

namespace ContactBook

/-! ## Calendar model (Python `datetime.date`) -/

/-- Proleptic Gregorian leap-year rule, as used by `datetime.date`. -/
def isLeapYear (y : Nat) : Bool :=
  (y % 4 == 0 && y % 100 != 0) || y % 400 == 0

/-- Number of days in month `m` (1–12) of year `y`. -/
def daysInMonth (y m : Nat) : Nat :=
  if m == 2 then (if isLeapYear y then 29 else 28)
  else if m == 4 || m == 6 || m == 9 || m == 11 then 30
  else 31

/-- A calendar date, as stored by Python's `datetime.date`. -/
structure Date where
  year : Nat
  month : Nat
  day : Nat
deriving DecidableEq, Repr

/-- The dates representable by `datetime.date`: year 1–9999, real month/day. -/
def Date.valid (d : Date) : Bool :=
  1 ≤ d.year && d.year ≤ 9999 && 1 ≤ d.month && d.month ≤ 12 &&
    1 ≤ d.day && d.day ≤ daysInMonth d.year d.month

/-- Python `date.__lt__`: lexicographic on (year, month, day). -/
def Date.lt (a b : Date) : Bool :=
  a.year < b.year ||
    (a.year == b.year &&
      (a.month < b.month || (a.month == b.month && a.day < b.day)))

/-- Python `date.__le__`. -/
def Date.le (a b : Date) : Bool :=
  Date.lt a b || (a == b)

/-- The day after `d` (calendar successor). -/
def Date.next (d : Date) : Date :=
  if d.day < daysInMonth d.year d.month then ⟨d.year, d.month, d.day + 1⟩
  else if d.month < 12 then ⟨d.year, d.month + 1, 1⟩
  else ⟨d.year + 1, 1, 1⟩

/-- `d + timedelta(days := n)` for a nonnegative number of days. -/
def Date.addDays (d : Date) (n : Nat) : Date :=
  match n with
  | 0 => d
  | n + 1 => (Date.addDays d n).next

/-- Days in years `1 .. y-1` of the proleptic Gregorian calendar. -/
def daysBeforeYear (y : Nat) : Nat :=
  365 * (y - 1) + (y - 1) / 4 - (y - 1) / 100 + (y - 1) / 400

/-- Days in months `1 .. m-1` of year `y`. -/
def daysBeforeMonth (y : Nat) : Nat → Nat
  | 0 => 0
  | 1 => 0
  | m + 1 => daysBeforeMonth y m + daysInMonth y m

/-- Rata-die day number: 0001-01-01 is day 1. -/
def Date.dayNumber (d : Date) : Nat :=
  daysBeforeYear d.year + daysBeforeMonth d.year d.month + d.day

/-- Python `date.weekday()`: Monday = 0, …, Sunday = 6.
    Day 1 (0001-01-01) was a Monday. -/
def Date.weekday (d : Date) : Nat :=
  (d.dayNumber + 6) % 7

/-- `date.strftime("%A")` (English locale), from `weekday()`. -/
def weekdayName : Nat → String
  | 0 => "Monday"
  | 1 => "Tuesday"
  | 2 => "Wednesday"
  | 3 => "Thursday"
  | 4 => "Friday"
  | 5 => "Saturday"
  | _ => "Sunday"

/-- Python `date.replace(year := y)`: rebuilds the date with the same month
    and day, raising `ValueError` when the result is not a real date (for
    example Feb 29 in a non-leap year, or a year outside 1–9999). -/
def Date.replaceYear (d : Date) (y : Nat) : Except String Date :=
  if Date.valid ⟨y, d.month, d.day⟩ then Except.ok ⟨y, d.month, d.day⟩
  else Except.error "ValueError: day is out of range for month"

/-! ## Digits and digit strings -/

/-- ASCII decimal digit `'0'`–`'9'`. -/
def isDig (c : Char) : Bool :=
  48 ≤ c.toNat && c.toNat ≤ 57

/-- Numeric value of an ASCII digit character. -/
def digitVal (c : Char) : Nat :=
  c.toNat - 48

/-- The ASCII digit character for `n < 10`. -/
def digitChar (n : Nat) : Char :=
  Char.ofNat (48 + n % 10)

/-- Python `str.isdigit` on a single character.  Python accepts every Unicode
    character of numeric type Digit or Decimal; this model covers the ASCII
    digits together with the Arabic-Indic digit block U+0660–U+0669 as a
    representative of the non-ASCII digits Python accepts.  The theorems
    below only quantify over strings on which this restriction is exact. -/
def pythonIsDigitChar (c : Char) : Bool :=
  isDig c || (0x660 ≤ c.toNat && c.toNat ≤ 0x669)

/-- Python `str.isdigit`: nonempty and every character a digit. -/
def pythonIsDigit (s : String) : Bool :=
  !s.toList.isEmpty && s.toList.all pythonIsDigitChar

/-- Value of a digit string, most significant first. -/
def digitsVal (l : List Char) : Nat :=
  l.foldl (fun a c => 10 * a + digitVal c) 0

/-- Two-digit zero-padded rendering (`strftime` `%d` / `%m`). -/
def pad2 (n : Nat) : String :=
  String.mk [digitChar (n / 10 % 10), digitChar (n % 10)]

/-- Four-digit zero-padded rendering (`strftime` `%Y`, as documented). -/
def pad4 (n : Nat) : String :=
  String.mk [digitChar (n / 1000 % 10), digitChar (n / 100 % 10),
             digitChar (n / 10 % 10), digitChar (n % 10)]

/-! ## `Phone.__init__` (classes.py lines 23–26) -/

/-- `Phone.__init__`: raises `ValueError` unless the length is in `[10, 12]`
    and `value.isdigit()` holds; otherwise stores the string unchanged. -/
def phoneInit (value : String) : Except String String :=
  if (value.length < 10 || 12 < value.length) || !pythonIsDigit value then
    Except.error "Phone number must be 10 or 12 digits long."
  else Except.ok value

/-! ## `datetime.strptime(_, "%d.%m.%Y")` (used by `Birthday.__init__`)

CPython's `_strptime` compiles `"%d.%m.%Y"` to the regular expression
`(3[01]|[12]\d|0[1-9]|[1-9])\.(1[0-2]|0[1-9]|[1-9])\.(\d\d\d\d)` anchored at
both ends, and converts each matched group with `int()`.  The explicit
character classes (`3[01]`, `0[1-9]`, `[1-9]`, `1[0-2]`) match ASCII digits
only; `\d` — the second character of the `[12]\d` day alternative and the
four year characters — is compiled without `re.ASCII` and therefore matches
any Unicode decimal digit (category Nd), which `int()` also parses, so for
example `"1.1.٢٠٢٤"` is accepted with year 2024.  The matchers below encode
the ASCII alternatives by their value ranges (days 1–31, months 1–12) and
model `\d` with `pyDecimalDigit`.  Regex alternation with backtracking is
modelled by `orElseO` over the whole continuation. -/

/-- A Unicode decimal digit (category Nd), as matched by `\d` in a CPython
    regex compiled without `re.ASCII` and converted by `int()`.  Modelled
    over the ASCII digits together with the Arabic-Indic block
    U+0660–U+0669 as a representative of the non-ASCII decimal digits; the
    theorems quantify only over inputs on which this restriction is exact. -/
def pyDecimalDigit (c : Char) : Bool :=
  isDig c || (0x660 ≤ c.toNat && c.toNat ≤ 0x669)

/-- The numeric value `int()` assigns to a decimal digit character. -/
def pyDigitVal (c : Char) : Nat :=
  if 0x660 ≤ c.toNat then c.toNat - 0x660 else c.toNat - 48

/-- `int()` on a group of decimal digit characters, most significant first. -/
def pyDigitsVal (l : List Char) : Nat :=
  l.foldl (fun a c => 10 * a + pyDigitVal c) 0

/-- First-match-wins choice (regex alternation). -/
def orElseO {α : Type} (a b : Option α) : Option α :=
  match a with
  | some x => some x
  | none => b

/-- Two-digit day alternatives `3[01]|[12]\d|0[1-9]`.  With both characters
    ASCII digits these alternatives accept exactly the values 1–31; in
    `[12]\d` the second character may also be a non-ASCII Unicode decimal
    digit.  The matched text is converted with `int()`. -/
def matchDay2 : List Char → Option (Nat × List Char)
  | c1 :: c2 :: rest =>
      if (isDig c1 && isDig c2 && (1 ≤ 10 * digitVal c1 + digitVal c2) &&
            (10 * digitVal c1 + digitVal c2 ≤ 31)) ||
          ((c1 = '1' || c1 = '2') && pyDecimalDigit c2) then
        some (10 * pyDigitVal c1 + pyDigitVal c2, rest)
      else none
  | _ => none

/-- One-digit day alternative `[1-9]` (an explicit ASCII class, no `\d`). -/
def matchDay1 : List Char → Option (Nat × List Char)
  | c :: rest =>
      if isDig c && 1 ≤ digitVal c then some (digitVal c, rest) else none
  | _ => none

/-- Two-digit month alternatives `1[0-2]|0[1-9]`: two ASCII digit characters
    whose value is 1–12 (the union of those alternatives; the month pattern
    contains no `\d`, so it is ASCII-only). -/
def matchMonth2 : List Char → Option (Nat × List Char)
  | c1 :: c2 :: rest =>
      if isDig c1 && isDig c2 && (1 ≤ 10 * digitVal c1 + digitVal c2) &&
          (10 * digitVal c1 + digitVal c2 ≤ 12) then
        some (10 * digitVal c1 + digitVal c2, rest)
      else none
  | _ => none

/-- One-digit month alternative `[1-9]` (an explicit ASCII class, no `\d`). -/
def matchMonth1 : List Char → Option (Nat × List Char)
  | c :: rest =>
      if isDig c && 1 ≤ digitVal c then some (digitVal c, rest) else none
  | _ => none

/-- The literal `.` of the format string. -/
def matchDot : List Char → Option (List Char)
  | c :: rest => if c = '.' then some rest else none
  | _ => none

/-- `\d\d\d\d` followed by end of input (strptime rejects trailing data):
    four Unicode decimal digits, converted with `int()`. -/
def matchYear4 : List Char → Option Nat
  | [c1, c2, c3, c4] =>
      if pyDecimalDigit c1 && pyDecimalDigit c2 && pyDecimalDigit c3 &&
          pyDecimalDigit c4 then
        some (pyDigitsVal [c1, c2, c3, c4])
      else none
  | _ => none

/-- After day and month: `.`, then the year, then end of input. -/
def parseFromDot2 (d m : Nat) (cs : List Char) : Option (Nat × Nat × Nat) :=
  match matchDot cs with
  | none => none
  | some cs4 =>
      match matchYear4 cs4 with
      | none => none
      | some y => some (d, m, y)

/-- After the day: `.`, then the month alternation, then the rest. -/
def parseFromDot (d : Nat) (cs : List Char) : Option (Nat × Nat × Nat) :=
  match matchDot cs with
  | none => none
  | some cs2 =>
      orElseO
        (match matchMonth2 cs2 with
         | some (m, cs3) => parseFromDot2 d m cs3
         | none => none)
        (match matchMonth1 cs2 with
         | some (m, cs3) => parseFromDot2 d m cs3
         | none => none)

/-- The full `%d.%m.%Y` match, returning `(day, month, year)`. -/
def parseDMY (cs : List Char) : Option (Nat × Nat × Nat) :=
  orElseO
    (match matchDay2 cs with
     | some (d, cs1) => parseFromDot d cs1
     | none => none)
    (match matchDay1 cs with
     | some (d, cs1) => parseFromDot d cs1
     | none => none)

/-! ## `Birthday` (classes.py lines 28–42) -/

/-- `Birthday.__init__`: an empty string stores `date = None`; a nonempty
    string is parsed with `strptime(_, "%d.%m.%Y")` (which also validates
    that the result is a real `datetime` date, year 1–9999), and a parse
    failure raises `ValueError`. -/
def birthdayInit (dateStr : String) : Except String (Option Date) :=
  if dateStr.toList.isEmpty then Except.ok none
  else
    match parseDMY dateStr.toList with
    | some (d, m, y) =>
        if Date.valid ⟨y, m, d⟩ then Except.ok (some ⟨y, m, d⟩)
        else Except.error "Invalid birthday format. Use DD.MM.YYYY."
    | none => Except.error "Invalid birthday format. Use DD.MM.YYYY."

/-- `date.strftime("%d.%m.%Y")`: zero-padded day, month and 4-digit year. -/
def dateFormatDMY (d : Date) : String :=
  pad2 d.day ++ "." ++ pad2 d.month ++ "." ++ pad4 d.year

/-- `Birthday.__str__`. -/
def birthdayToStr (b : Option Date) : String :=
  match b with
  | some d => dateFormatDMY d
  | none => "No birthday set"

/-! ## `Record` and `AddressBook` (classes.py lines 45–121) -/

/-- One contact.  `birthday = none` models `self.birthday = None`;
    `birthday = some none` models a `Birthday` object whose `date` is `None`
    (constructed from the empty string); `birthday = some (some d)` models a
    `Birthday` holding a parsed date. -/
structure Record where
  name : String
  phones : List String
  birthday : Option (Option Date)
deriving DecidableEq, Repr

/-- `Record.edit_phone(old, new)`: every phone textually equal to `old` gets
    value `new` (the loop fixes `old` before mutating). -/
def editPhone (phones : List String) (oldPhone newPhone : String) : List String :=
  phones.map (fun p => if p = oldPhone then newPhone else p)

/-- The address book: `self.data`, an insertion-ordered dict from name to
    record, modelled as the list of records in key-insertion order (the key
    of each entry is always `record.name`). -/
def findRecord (book : List Record) (name : String) : Option Record :=
  book.find? (fun r => r.name = name)

/-- `AddressBook.add_record`: dict assignment `data[record.name] = record` —
    replaces in place when the key exists, else appends. -/
def addRecord (book : List Record) (r : Record) : List Record :=
  if (findRecord book r.name).isSome then
    book.map (fun x => if x.name = r.name then r else x)
  else book ++ [r]

/-- `AddressBook.delete_record`: `del data[name]` guarded by membership. -/
def deleteRecord (book : List Record) (name : String) : List Record :=
  book.filter (fun r => r.name ≠ name)

/-- In-place mutation of the record object returned by `find`: replace the
    first entry with that name. -/
def updateFirst (book : List Record) (name : String) (r : Record) : List Record :=
  match book with
  | [] => []
  | x :: xs => if x.name = name then r :: xs else x :: updateFirst xs name r

/-! ## `AddressBook.get_birthdays_per_week` (classes.py lines 94–117) -/

/-- `defaultdict(list)` append under insertion-ordered keys:
    `birthdays_per_week[key].append(v)`. -/
def bucketsAdd (m : List (String × List String)) (k : String) (v : String) :
    List (String × List String) :=
  match m with
  | [] => [(k, [v])]
  | (k', vs) :: rest =>
      if k' = k then (k', vs ++ [v]) :: rest else (k', vs) :: bucketsAdd rest k v

/-- The body of the `for record in self.data.values()` loop.  A `Birthday`
    object is always truthy in Python, so a `Birthday` whose `date` is `None`
    passes the `if record.birthday:` test and then fails on
    `record.birthday.date.replace` with `AttributeError`. -/
def gbpwStep (today : Date) (acc : List (String × List String)) (record : Record) :
    Except String (List (String × List String)) :=
  match record.birthday with
  | none => Except.ok acc
  | some none =>
      Except.error "AttributeError: 'NoneType' object has no attribute 'replace'"
  | some (some bdate) =>
      match Date.replaceYear bdate today.year with
      | Except.error e => Except.error e
      | Except.ok bty1 =>
          let roll : Except String Date :=
            if Date.lt bty1 today then Date.replaceYear bty1 (today.year + 1)
            else Except.ok bty1
          match roll with
          | Except.error e => Except.error e
          | Except.ok bty =>
              if Date.le today bty && Date.le bty (Date.addDays today 7) then
                let wname :=
                  if 5 ≤ Date.weekday bty then "Monday"
                  else weekdayName (Date.weekday bty)
                Except.ok (bucketsAdd acc wname record.name)
              else Except.ok acc

/-- `AddressBook.get_birthdays_per_week` with `today` made explicit
    (the code reads `datetime.today()`). -/
def getBirthdaysPerWeek (book : List Record) (today : Date) :
    Except String (List (String × List String)) :=
  book.foldlM (gbpwStep today) []

/-! ## Controller `Contact` (classes.py lines 123–188)

Each operation returns `Except (message × directory-at-raise)
(directory × printed lines)`: Python exceptions propagate out of the
controller uncaught, and the paired state records what the directory held
when the raise happened. -/

def CtrlResult : Type := Except (String × List Record) (List Record × List String)

/-- `Contact.add_contact`: builds `Record(name)`, validates and adds the
    phone (raising on a bad phone *before* the record is inserted), then
    inserts the record. -/
def addContact (book : List Record) (name phone : String) : CtrlResult :=
  match phoneInit phone with
  | Except.error e => Except.error (e, book)
  | Except.ok ph =>
      Except.ok (addRecord book ⟨name, [ph], none⟩, ["Contact added successfully."])

/-- `Contact.change_phone`: on a found record, reads `record.phones[0].value`
    (an `IndexError` when the phone list is empty) and calls
    `edit_phone(first, new_phone)`. -/
def changePhone (book : List Record) (name newPhone : String) : CtrlResult :=
  match findRecord book name with
  | some record =>
      match record.phones with
      | [] => Except.error ("IndexError: list index out of range", book)
      | p0 :: _ =>
          let record' := { record with phones := editPhone record.phones p0 newPhone }
          Except.ok (updateFirst book name record', ["Phone number changed successfully."])
  | none => Except.ok (book, ["Contact not found."])

/-- `Contact.show_phone`. -/
def showPhone (book : List Record) (name : String) : CtrlResult :=
  match findRecord book name with
  | some record =>
      match record.phones with
      | [] => Except.error ("IndexError: list index out of range", book)
      | p0 :: _ => Except.ok (book, ["Phone number for " ++ name ++ ": " ++ p0])
  | none => Except.ok (book, ["Contact not found."])

/-- `Contact.add_birthday`: only when the record exists is the `Birthday`
    constructed, so only then can `ValueError` be raised. -/
def addBirthdayOp (book : List Record) (name bday : String) : CtrlResult :=
  match findRecord book name with
  | some record =>
      match birthdayInit bday with
      | Except.error e => Except.error (e, book)
      | Except.ok b =>
          Except.ok (updateFirst book name { record with birthday := some b },
                     ["Birthday added successfully."])
  | none => Except.ok (book, ["Contact not found."])

/-- `Contact.show_birthday` (a `Birthday` object is always truthy, so the
    first branch fires whenever `record.birthday` is not `None`). -/
def showBirthdayOp (book : List Record) (name : String) : CtrlResult :=
  match findRecord book name with
  | some record =>
      match record.birthday with
      | some b => Except.ok (book, ["Birthday for " ++ name ++ ": " ++ birthdayToStr b])
      | none => Except.ok (book, ["No birthday specified for " ++ name ++ "."])
  | none => Except.ok (book, ["Contact not found."])

/-- `Record.__str__`. -/
def recordStr (r : Record) : String :=
  "Contact name: " ++ r.name ++ ", phones: " ++ String.intercalate "; " r.phones ++
    ", birthday: " ++ (match r.birthday with
                       | some b => birthdayToStr b
                       | none => "Not specified")

/-- `Contact.birthdays_this_week` output lines. -/
def formatBirthdays (m : List (String × List String)) : List String :=
  if m.isEmpty then ["No birthdays for the next week."]
  else "Birthdays for the next week:" ::
    m.map (fun p => p.1 ++ ": " ++ String.intercalate ", " p.2)

/-- `Contact.birthdays_this_week`. -/
def birthdaysThisWeek (book : List Record) (today : Date) : CtrlResult :=
  match getBirthdaysPerWeek book today with
  | Except.ok m => Except.ok (book, formatBirthdays m)
  | Except.error e => Except.error (e, book)

/-- `Contact.list_all_contacts`. -/
def listAllContacts (book : List Record) : CtrlResult :=
  Except.ok (book, ["All contacts in the address book:",
                    String.intercalate "\n" (book.map recordStr)])

/-! ## The command loop (main.py lines 11–44) -/

/-- One dispatched command of the loop, with its prompted arguments. -/
inductive Cmd where
  | add (name phone : String)
  | change (name newPhone : String)
  | phone (name : String)
  | addBirthday (name bday : String)
  | showBirthday (name : String)
  | birthdays
  | all
  | hello
deriving DecidableEq, Repr

/-- Dispatch of one command, with the current date made explicit. -/
def runCmd (today : Date) (book : List Record) : Cmd → CtrlResult
  | Cmd.add n p => addContact book n p
  | Cmd.change n p => changePhone book n p
  | Cmd.phone n => showPhone book n
  | Cmd.addBirthday n b => addBirthdayOp book n b
  | Cmd.showBirthday n => showBirthdayOp book n
  | Cmd.birthdays => birthdaysThisWeek book today
  | Cmd.all => listAllContacts book
  | Cmd.hello => Except.ok (book, ["Hello! I'm your address book bot."])

/-- Directory states reachable from the empty book through successful
    commands of the loop (an uncaught exception terminates the process, so
    no state is reachable through it). -/
inductive LoopReachable : List Record → Prop
  | empty : LoopReachable []
  | step (today : Date) (c : Cmd) (b b' : List Record) (out : List String) :
      LoopReachable b → runCmd today b c = Except.ok (b', out) → LoopReachable b'

/-- Directory states reachable through the raw `AddressBook` operations. -/
inductive BookReachable : List Record → Prop
  | empty : BookReachable []
  | add (b : List Record) (r : Record) : BookReachable b → BookReachable (addRecord b r)
  | del (b : List Record) (n : String) : BookReachable b → BookReachable (deleteRecord b n)

/-! ## Spec-side definitions

These follow the words of the specification, to be compared with the code
embedding above. -/

/-- Spec: "this year's occurrence of that month/day". -/
def thisYearOccurrence (today bd : Date) : Date :=
  ⟨today.year, bd.month, bd.day⟩

/-- Spec: "rolled to next year when it already passed today". -/
def rolledOccurrence (today bd : Date) : Date :=
  if Date.lt (thisYearOccurrence today bd) today then ⟨today.year + 1, bd.month, bd.day⟩
  else thisYearOccurrence today bd

/-- Spec: "the (possibly rolled) occurrence falls within
    `[today, today+7 days]` inclusive". -/
def specInWindow (today bd : Date) : Bool :=
  Date.le today (rolledOccurrence today bd) &&
    Date.le (rolledOccurrence today bd) (Date.addDays today 7)

/-- Spec: "bucket by weekday name; Saturday or Sunday under Monday". -/
def specBucket (today bd : Date) : String :=
  if 5 ≤ Date.weekday (rolledOccurrence today bd) then "Monday"
  else weekdayName (Date.weekday (rolledOccurrence today bd))

/-- Spec shape of an accepted birthday string (the amended C5): a one-or-two
    digit day, a dot, a one-or-two digit month, a dot and a four-digit year,
    whose numeric values are those of `dt`. -/
def flexShape (s : String) (dt : Date) : Prop :=
  ∃ dcs mcs ycs : List Char,
    s.toList = dcs ++ '.' :: (mcs ++ '.' :: ycs) ∧
    1 ≤ dcs.length ∧ dcs.length ≤ 2 ∧ (∀ c ∈ dcs, isDig c = true) ∧
      digitsVal dcs = dt.day ∧
    1 ≤ mcs.length ∧ mcs.length ≤ 2 ∧ (∀ c ∈ mcs, isDig c = true) ∧
      digitsVal mcs = dt.month ∧
    ycs.length = 4 ∧ (∀ c ∈ ycs, isDig c = true) ∧ digitsVal ycs = dt.year

/-! ## Helper lemmas -/

theorem daysInMonth_le_31 (y m : Nat) : daysInMonth y m ≤ 31 := by
  unfold daysInMonth
  split
  · split <;> omega
  · split <;> omega

theorem findRecord_map_replace (r : Record) :
    ∀ book : List Record, (findRecord book r.name).isSome →
      findRecord (book.map fun x => if x.name = r.name then r else x) r.name = some r := by
  intro book
  induction book with
  | nil => simp [findRecord]
  | cons x xs ih =>
      intro h
      by_cases hx : x.name = r.name
      · simp [findRecord, List.find?_cons, hx]
      · simp only [findRecord, List.map_cons, if_neg hx] at *
        rw [List.find?_cons_of_neg _ (by simpa using hx)] at h ⊢
        exact ih h

theorem findRecord_append_single (r : Record) :
    ∀ book : List Record, findRecord book r.name = none →
      findRecord (book ++ [r]) r.name = some r := by
  intro book
  induction book with
  | nil => simp [findRecord]
  | cons x xs ih =>
      intro h
      simp only [findRecord] at *
      cases hx : (decide (x.name = r.name)) with
      | true =>
          rw [List.find?_cons_of_pos _ (by simpa using hx)] at h
          cases h
      | false =>
          rw [List.find?_cons_of_neg _ (by simpa using hx)] at h
          rw [List.cons_append, List.find?_cons_of_neg _ (by simpa using hx)]
          exact ih h

theorem findRecord_addRecord (book : List Record) (r : Record) :
    findRecord (addRecord book r) r.name = some r := by
  unfold addRecord
  by_cases h : (findRecord book r.name).isSome
  · rw [if_pos h]
    exact findRecord_map_replace r book h
  · rw [if_neg h]
    refine findRecord_append_single r book ?_
    cases hf : findRecord book r.name
    · rfl
    · simp [hf] at h

theorem findRecord_none_notMem (book : List Record) (name : String)
    (h : findRecord book name = none) : ∀ x ∈ book, x.name ≠ name := by
  intro x hx
  have := List.find?_eq_none.mp h x hx
  simpa using this

theorem names_addRecord (book : List Record) (r : Record) :
    (addRecord book r).map Record.name = book.map Record.name ∨
      (addRecord book r).map Record.name = book.map Record.name ++ [r.name] := by
  unfold addRecord
  by_cases h : (findRecord book r.name).isSome
  · left
    rw [if_pos h, List.map_map]
    refine List.map_congr_left ?_
    intro x _
    by_cases hx : x.name = r.name
    · simp [Function.comp, hx]
    · simp [Function.comp, hx]
  · right
    rw [if_neg h]
    simp

theorem nodup_names_reachable (book : List Record) (h : BookReachable book) :
    (book.map Record.name).Nodup := by
  induction h with
  | empty => simp
  | add b r _ ih =>
      rcases names_addRecord b r with heq | heq
      · rw [heq]; exact ih
      · rw [heq]
        rw [List.nodup_append]
        refine ⟨ih, List.nodup_singleton _, ?_⟩
        intro a ha
        simp only [List.mem_map] at ha
        obtain ⟨x, hx, hxa⟩ := ha
        have hnone : findRecord b r.name = none := by
          cases hf : findRecord b r.name
          · rfl
          · unfold addRecord at heq
            simp [hf] at heq
            have := congrArg List.length heq
            simp at this
        have := findRecord_none_notMem b r.name hnone x hx
        simp only [List.mem_singleton]
        intro hcontra
        exact this (hxa.trans hcontra) |>.elim
  | del b n _ ih =>
      have hsub : ((deleteRecord b n).map Record.name).Sublist (b.map Record.name) :=
        List.Sublist.map Record.name (List.filter_sublist b)
      exact List.Nodup.sublist hsub ih

/-- C7 — `Directory.add` then `find` returns the added record (so the second
    add under a name wins entirely), and every state reachable through the
    raw book operations holds at most one record per name. -/
theorem directory_add_find_last_write_wins :
    (∀ (book : List Record) (r : Record), findRecord (addRecord book r) r.name = some r)
    ∧ (∀ book : List Record, BookReachable book → (book.map Record.name).Nodup) :=
  ⟨findRecord_addRecord, nodup_names_reachable⟩

/-- Witness for C7 at concrete inputs: adding "Ann" twice, the second record
    wins, and the resulting directory's names are duplicate-free. -/
theorem directory_add_find_last_write_wins_witness :
    findRecord (addRecord (addRecord [] ⟨"Ann", ["1234567890"], none⟩)
        ⟨"Ann", ["0987654321"], none⟩) "Ann" = some ⟨"Ann", ["0987654321"], none⟩
    ∧ ((addRecord (addRecord [] ⟨"Ann", ["1234567890"], none⟩)
        ⟨"Ann", ["0987654321"], none⟩).map Record.name).Nodup :=
  ⟨directory_add_find_last_write_wins.1 (addRecord [] ⟨"Ann", ["1234567890"], none⟩)
      ⟨"Ann", ["0987654321"], none⟩,
   directory_add_find_last_write_wins.2 _
      (BookReachable.add _ _ (BookReachable.add _ _ BookReachable.empty))⟩

/-- C8 — an `InvalidFormat` failure of a phone or birthday string propagates
    out of the controller as the raw exception with no user-facing output,
    while a missing name is always handled locally by printing
    "Contact not found." and never raises. -/
theorem controller_error_policy :
    (∀ (book : List Record) (name phone e : String),
        phoneInit phone = Except.error e →
        addContact book name phone = Except.error (e, book))
    ∧ (∀ (book : List Record) (name bday e : String) (r : Record),
        findRecord book name = some r →
        birthdayInit bday = Except.error e →
        addBirthdayOp book name bday = Except.error (e, book))
    ∧ (∀ (book : List Record) (name : String), findRecord book name = none →
        (∀ np, changePhone book name np = Except.ok (book, ["Contact not found."]))
        ∧ showPhone book name = Except.ok (book, ["Contact not found."])
        ∧ (∀ b, addBirthdayOp book name b = Except.ok (book, ["Contact not found."]))
        ∧ showBirthdayOp book name = Except.ok (book, ["Contact not found."])) := by
  refine ⟨?_, ?_, ?_⟩
  · intro book name phone e h
    simp [addContact, h]
  · intro book name bday e r hf hb
    simp [addBirthdayOp, hf, hb]
  · intro book name h
    exact ⟨fun np => by simp [changePhone, h], by simp [showPhone, h],
           fun b => by simp [addBirthdayOp, h], by simp [showBirthdayOp, h]⟩

/-- Witness for C8 at concrete inputs. -/
theorem controller_error_policy_witness :
    addContact [] "Ann" "123" =
      Except.error ("Phone number must be 10 or 12 digits long.", [])
    ∧ addBirthdayOp [⟨"Ann", ["1234567890"], none⟩] "Ann" "bad" =
      Except.error ("Invalid birthday format. Use DD.MM.YYYY.",
        [⟨"Ann", ["1234567890"], none⟩])
    ∧ changePhone [] "Bob" "0987654321" = Except.ok ([], ["Contact not found."]) :=
  ⟨controller_error_policy.1 [] "Ann" "123" _ rfl,
   controller_error_policy.2.1 [⟨"Ann", ["1234567890"], none⟩] "Ann" "bad" _
      ⟨"Ann", ["1234567890"], none⟩ rfl rfl,
   (controller_error_policy.2.2 [] "Bob" rfl).1 "0987654321"⟩

/-- C10 — `add` with an invalid phone raises before the record is inserted:
    the exception carries the directory exactly as it was, so any
    pre-existing record under that name is still found unchanged. -/
theorem add_invalid_phone_preserves_directory :
    ∀ (book : List Record) (name phone e : String),
      phoneInit phone = Except.error e →
      addContact book name phone = Except.error (e, book) ∧
      ∀ r, findRecord book name = some r →
        (match addContact book name phone with
         | Except.error (_, st) => findRecord st name
         | Except.ok (st, _) => findRecord st name) = some r := by
  intro book name phone e h
  refine ⟨by simp [addContact, h], ?_⟩
  intro r hr
  simp [addContact, h, hr]

/-- Witness for C10 at concrete inputs: a bad phone for "Ann" leaves Ann's
    existing record in place. -/
theorem add_invalid_phone_preserves_directory_witness :
    addContact [⟨"Ann", ["1234567890"], none⟩] "Ann" "12ab" =
      Except.error ("Phone number must be 10 or 12 digits long.",
        [⟨"Ann", ["1234567890"], none⟩])
    ∧ (match addContact [⟨"Ann", ["1234567890"], none⟩] "Ann" "12ab" with
       | Except.error (_, st) => findRecord st "Ann"
       | Except.ok (st, _) => findRecord st "Ann") = some ⟨"Ann", ["1234567890"], none⟩ :=
  ⟨(add_invalid_phone_preserves_directory [⟨"Ann", ["1234567890"], none⟩] "Ann" "12ab" _ rfl).1,
   (add_invalid_phone_preserves_directory [⟨"Ann", ["1234567890"], none⟩] "Ann" "12ab" _ rfl).2
      ⟨"Ann", ["1234567890"], none⟩ rfl⟩

theorem findRecord_updateFirst (name : String) (r' : Record) (hname : r'.name = name) :
    ∀ (book : List Record) (r : Record), findRecord book name = some r →
      findRecord (updateFirst book name r') name = some r' := by
  intro book
  induction book with
  | nil => intro r h; simp [findRecord] at h
  | cons x xs ih =>
      intro r h
      by_cases hx : x.name = name
      · simp [updateFirst, hx, findRecord, List.find?_cons, hname]
      · simp only [findRecord] at h
        rw [List.find?_cons_of_neg _ (by simpa using hx)] at h
        simp only [updateFirst, if_neg hx, findRecord]
        rw [List.find?_cons_of_neg _ (by simpa using hx)]
        exact ih r h

/-- C2 counterexample — with two phones equal to the first one,
    `change("Ann", "0987654321")` rewrites both of them, not only the phone
    at index 0, contradicting the claim that other phones with the same
    value stay unchanged. -/
theorem change_phone_counterexample :
    changePhone [⟨"Ann", ["1234567890", "1234567890", "5555555555"], none⟩]
        "Ann" "0987654321" =
      Except.ok ([⟨"Ann", ["0987654321", "0987654321", "5555555555"], none⟩],
        ["Phone number changed successfully."])
    ∧ ("0987654321" : String) ≠ "1234567890" := by
  exact ⟨rfl, by decide⟩

/-- C2 amended — `change(name, new_phone)` on a found record with at least
    one phone replaces every phone whose value equals the first phone's
    value (the first one included) by `new_phone` and keeps all other phones;
    it reports "not found" when no record with that name exists. -/
theorem change_phone_replaces_all_equal_to_first :
    (∀ (book : List Record) (name newPhone : String) (r : Record)
        (p0 : String) (ps : List String),
        findRecord book name = some r → r.phones = p0 :: ps →
        changePhone book name newPhone =
          Except.ok (updateFirst book name
              { r with phones := (p0 :: ps).map fun p => if p = p0 then newPhone else p },
            ["Phone number changed successfully."])
        ∧ findRecord (updateFirst book name
              { r with phones := (p0 :: ps).map fun p => if p = p0 then newPhone else p })
            name =
          some { r with phones := (p0 :: ps).map fun p => if p = p0 then newPhone else p })
    ∧ (∀ (book : List Record) (name newPhone : String),
        findRecord book name = none →
        changePhone book name newPhone = Except.ok (book, ["Contact not found."])) := by
  constructor
  · intro book name newPhone r p0 ps hf hp
    have hrname : r.name = name := by
      have := List.find?_some hf
      simpa using this
    constructor
    · simp [changePhone, hf, hp, editPhone]
    · exact findRecord_updateFirst name
        { r with phones := (p0 :: ps).map fun p => if p = p0 then newPhone else p }
        hrname book r hf
  · intro book name newPhone h
    simp [changePhone, h]

/-- Witness for the amended C2 at concrete inputs. -/
theorem change_phone_replaces_all_equal_to_first_witness :
    changePhone [⟨"Ann", ["1234567890", "1234567890", "5555555555"], none⟩]
        "Ann" "0000000000" =
      Except.ok (updateFirst [⟨"Ann", ["1234567890", "1234567890", "5555555555"], none⟩]
          "Ann" ⟨"Ann", ("1234567890" :: ["1234567890", "5555555555"]).map
            fun p => if p = "1234567890" then "0000000000" else p, none⟩,
        ["Phone number changed successfully."])
    ∧ changePhone [] "Bob" "0000000000" = Except.ok ([], ["Contact not found."]) :=
  ⟨(change_phone_replaces_all_equal_to_first.1
      [⟨"Ann", ["1234567890", "1234567890", "5555555555"], none⟩] "Ann" "0000000000"
      ⟨"Ann", ["1234567890", "1234567890", "5555555555"], none⟩
      "1234567890" ["1234567890", "5555555555"] rfl rfl).1,
   change_phone_replaces_all_equal_to_first.2 [] "Bob" "0000000000" rfl⟩

theorem pythonIsDigitChar_ascii (c : Char) (h : c.toNat < 128) :
    pythonIsDigitChar c = isDig c := by
  have h2 : ¬ (1632 ≤ c.toNat) := by omega
  simp [pythonIsDigitChar, h2]

/-- C4 counterexample — a string of ten Arabic-Indic digits (U+0660–U+0669)
    is accepted by `Phone.__init__` because Python's `str.isdigit` is true
    for them, although none of its characters is an ASCII digit; the claimed
    "if and only if 10–12 ASCII digits" therefore fails. -/
theorem phone_counterexample :
    phoneInit "٠١٢٣٤٥٦٧٨٩" = Except.ok "٠١٢٣٤٥٦٧٨٩"
    ∧ "٠١٢٣٤٥٦٧٨٩".length = 10
    ∧ ¬ (∀ c ∈ "٠١٢٣٤٥٦٧٨٩".toList, isDig c = true) := by
  exact ⟨rfl, rfl, by decide⟩

/-- C4 amended — restricted to ASCII strings the claim holds: construction
    succeeds exactly when the string consists of 10 to 12 ASCII digits; over
    general Unicode strings only the "if" direction survives, because
    `str.isdigit` also accepts non-ASCII Unicode digits. -/
theorem phone_accepts_iff_ascii :
    ∀ s : String, (∀ c ∈ s.toList, c.toNat < 128) →
      (phoneInit s = Except.ok s ↔
        (10 ≤ s.length ∧ s.length ≤ 12 ∧ ∀ c ∈ s.toList, isDig c = true)) := by
  intro s hascii
  have hlen : s.length = s.toList.length := rfl
  have hdig : s.toList.all pythonIsDigitChar = s.toList.all isDig := by
    have hiff : (s.toList.all pythonIsDigitChar = true) ↔ (s.toList.all isDig = true) := by
      simp only [List.all_eq_true]
      constructor <;> intro h c hc
      · rw [← pythonIsDigitChar_ascii c (hascii c hc)]
        exact h c hc
      · rw [pythonIsDigitChar_ascii c (hascii c hc)]
        exact h c hc
    exact Bool.eq_iff_iff.mpr hiff
  constructor
  · intro h
    unfold phoneInit at h
    split at h
    · cases h
    · rename_i hcond
      have h1 : ¬ s.length < 10 := by
        intro hx
        exact hcond (by simp [hx])
      have h2 : ¬ 12 < s.length := by
        intro hx
        exact hcond (by simp [hx])
      have hB : pythonIsDigit s = true := by
        cases hpd : pythonIsDigit s
        · exact absurd (by simp [hpd]) hcond
        · rfl
      have hall : s.toList.all isDig = true := by
        unfold pythonIsDigit at hB
        rw [hdig] at hB
        exact ((Bool.and_eq_true _ _).mp hB).2
      exact ⟨by omega, by omega, List.all_eq_true.mp hall⟩
  · rintro ⟨h1, h2, h3⟩
    have hne0 : s.toList ≠ [] := by
      intro hnil
      rw [hlen, hnil] at h1
      simp at h1
    have hne : s.toList.isEmpty = false := by
      cases hI : s.toList.isEmpty
      · rfl
      · exact absurd (List.isEmpty_iff.mp hI) hne0
    have hall : s.toList.all isDig = true := List.all_eq_true.mpr h3
    have hy : pythonIsDigit s = true := by
      unfold pythonIsDigit
      rw [hdig, hne, hall]
      rfl
    have d1 : decide (s.length < 10) = false := decide_eq_false (by omega)
    have d2 : decide (12 < s.length) = false := decide_eq_false (by omega)
    unfold phoneInit
    rw [if_neg (by simp [d1, d2, hy])]

/-- Witness for the amended C4 at a concrete ASCII input. -/
theorem phone_accepts_iff_ascii_witness :
    phoneInit "1234567890" = Except.ok "1234567890" ↔
      (10 ≤ "1234567890".length ∧ "1234567890".length ≤ 12 ∧
        ∀ c ∈ "1234567890".toList, isDig c = true) :=
  phone_accepts_iff_ascii "1234567890" (by decide)

theorem bucketsAdd_mem (m : List (String × List String)) (k v : String) :
    ∀ w n, (∃ vs, (w, vs) ∈ bucketsAdd m k v ∧ n ∈ vs) ↔
      ((∃ vs, (w, vs) ∈ m ∧ n ∈ vs) ∨ (w = k ∧ n = v)) := by
  induction m with
  | nil =>
      intro w n
      constructor
      · rintro ⟨vs, hmem, hn⟩
        have heq : (w, vs) = (k, [v]) := by simpa [bucketsAdd] using hmem
        injection heq with h1 h2
        subst h2
        exact Or.inr ⟨h1, by simpa using hn⟩
      · rintro (⟨vs, hmem, _⟩ | ⟨hw, hn⟩)
        · simp at hmem
        · exact ⟨[v], by simp [bucketsAdd, hw], by simp [hn]⟩
  | cons p rest ih =>
      obtain ⟨k', vs'⟩ := p
      intro w n
      by_cases hk : k' = k
      · subst hk
        have hba : bucketsAdd ((k', vs') :: rest) k' v = (k', vs' ++ [v]) :: rest := by
          simp [bucketsAdd]
        rw [hba]
        constructor
        · rintro ⟨vs, hmem, hn⟩
          rcases List.mem_cons.mp hmem with heq | hmem'
          · injection heq with h1 h2
            subst h2
            rcases List.mem_append.mp hn with hn' | hn'
            · exact Or.inl ⟨vs', by rw [h1]; exact List.mem_cons_self _ _, hn'⟩
            · exact Or.inr ⟨h1, by simpa using hn'⟩
          · exact Or.inl ⟨vs, List.mem_cons_of_mem _ hmem', hn⟩
        · rintro (⟨vs, hmem, hn⟩ | ⟨hw, hn⟩)
          · rcases List.mem_cons.mp hmem with heq | hmem'
            · injection heq with h1 h2
              subst h2
              exact ⟨vs ++ [v], by rw [h1]; exact List.mem_cons_self _ _,
                List.mem_append.mpr (Or.inl hn)⟩
            · exact ⟨vs, List.mem_cons_of_mem _ hmem', hn⟩
          · exact ⟨vs' ++ [v], by rw [hw]; exact List.mem_cons_self _ _,
              List.mem_append.mpr (Or.inr (by simp [hn]))⟩
      · have hba : bucketsAdd ((k', vs') :: rest) k v = (k', vs') :: bucketsAdd rest k v := by
          simp [bucketsAdd, hk]
        rw [hba]
        constructor
        · rintro ⟨vs, hmem, hn⟩
          rcases List.mem_cons.mp hmem with heq | hmem'
          · injection heq with h1 h2
            subst h2
            exact Or.inl ⟨vs, by rw [h1]; exact List.mem_cons_self _ _, hn⟩
          · rcases (ih w n).mp ⟨vs, hmem', hn⟩ with ⟨vs2, h2, hn2⟩ | hkv
            · exact Or.inl ⟨vs2, List.mem_cons_of_mem _ h2, hn2⟩
            · exact Or.inr hkv
        · rintro (⟨vs, hmem, hn⟩ | hkv)
          · rcases List.mem_cons.mp hmem with heq | hmem'
            · injection heq with h1 h2
              subst h2
              exact ⟨vs, by rw [h1]; exact List.mem_cons_self _ _, hn⟩
            · obtain ⟨vs2, h2, hn2⟩ := (ih w n).mpr (Or.inl ⟨vs, hmem', hn⟩)
              exact ⟨vs2, List.mem_cons_of_mem _ h2, hn2⟩
          · obtain ⟨vs2, h2, hn2⟩ := (ih w n).mpr (Or.inr hkv)
            exact ⟨vs2, List.mem_cons_of_mem _ h2, hn2⟩

theorem bucketsAdd_nonempty (m : List (String × List String)) (k v : String) :
    (∀ p ∈ m, p.2 ≠ []) → ∀ p ∈ bucketsAdd m k v, p.2 ≠ [] := by
  induction m with
  | nil =>
      intro _ p hp
      have hpe : p = (k, [v]) := by simpa [bucketsAdd] using hp
      subst hpe
      simp
  | cons q rest ih =>
      obtain ⟨k', vs'⟩ := q
      intro hm p hp
      by_cases hk : k' = k
      · subst hk
        have hba : bucketsAdd ((k', vs') :: rest) k' v = (k', vs' ++ [v]) :: rest := by
          simp [bucketsAdd]
        rw [hba] at hp
        rcases List.mem_cons.mp hp with hpe | hpm
        · subst hpe; simp
        · exact hm p (List.mem_cons_of_mem _ hpm)
      · have hba : bucketsAdd ((k', vs') :: rest) k v =
            (k', vs') :: bucketsAdd rest k v := by
          simp [bucketsAdd, hk]
        rw [hba] at hp
        rcases List.mem_cons.mp hp with hpe | hpm
        · subst hpe
          exact hm (k', vs') (List.mem_cons_self _ _)
        · exact ih (fun q hq => hm q (List.mem_cons_of_mem _ hq)) p hpm

theorem replaceYear_ok_elim (d : Date) (y : Nat) (x : Date)
    (h : Date.replaceYear d y = Except.ok x) : x = ⟨y, d.month, d.day⟩ := by
  unfold Date.replaceYear at h
  split at h
  · injection h with h; exact h.symm
  · cases h

/-- When the loop body returns normally, either the record is in the spec's
    window and the accumulator gained its name under the spec's bucket, or
    it is not and the accumulator is unchanged. -/
theorem gbpwStep_ok_char (today : Date) (acc : List (String × List String))
    (r : Record) (acc' : List (String × List String))
    (h : gbpwStep today acc r = Except.ok acc') :
    (∃ bd, r.birthday = some (some bd) ∧ specInWindow today bd = true ∧
       acc' = bucketsAdd acc (specBucket today bd) r.name)
    ∨ ((∀ bd, r.birthday = some (some bd) → specInWindow today bd = false) ∧
       acc' = acc) := by
  cases hbd : r.birthday with
  | none =>
      right
      refine ⟨?_, ?_⟩
      · intro bd hc
        exact Option.noConfusion hc
      · simp [gbpwStep, hbd] at h
        exact h.symm
  | some ob =>
      cases ob with
      | none => simp [gbpwStep, hbd] at h
      | some bd =>
          cases hrep : Date.replaceYear bd today.year with
          | error e => simp [gbpwStep, hbd, hrep] at h
          | ok bty1 =>
              have hbty1 : bty1 = ⟨today.year, bd.month, bd.day⟩ :=
                replaceYear_ok_elim bd today.year bty1 hrep
              subst hbty1
              by_cases hlt : Date.lt ⟨today.year, bd.month, bd.day⟩ today = true
              · cases hrep2 : Date.replaceYear (⟨today.year, bd.month, bd.day⟩ : Date)
                    (today.year + 1) with
                | error e => simp [gbpwStep, hbd, hrep, hlt, hrep2] at h
                | ok bty =>
                    have hbty : bty = ⟨today.year + 1, bd.month, bd.day⟩ :=
                      replaceYear_ok_elim _ _ _ hrep2
                    subst hbty
                    have hrolled : rolledOccurrence today bd =
                        ⟨today.year + 1, bd.month, bd.day⟩ := by
                      unfold rolledOccurrence thisYearOccurrence
                      rw [if_pos hlt]
                    by_cases hw : (Date.le today ⟨today.year + 1, bd.month, bd.day⟩ &&
                        Date.le ⟨today.year + 1, bd.month, bd.day⟩
                          (Date.addDays today 7)) = true
                    · left
                      refine ⟨bd, rfl, ?_, ?_⟩
                      · unfold specInWindow; rw [hrolled]; exact hw
                      · simp [gbpwStep, hbd, hrep, hlt, hrep2, hw] at h
                        rw [← h]
                        unfold specBucket
                        rw [hrolled]
                    · right
                      refine ⟨?_, ?_⟩
                      · intro bd' hbd'
                        injection hbd' with h1
                        injection h1 with h2
                        subst h2
                        unfold specInWindow
                        rw [hrolled]
                        cases hb : (Date.le today ⟨today.year + 1, bd.month, bd.day⟩ &&
                            Date.le ⟨today.year + 1, bd.month, bd.day⟩
                              (Date.addDays today 7))
                        · rfl
                        · exact absurd hb hw
                      · simp [gbpwStep, hbd, hrep, hlt, hrep2, hw] at h
                        exact h.symm
              · have hrolled : rolledOccurrence today bd =
                    ⟨today.year, bd.month, bd.day⟩ := by
                  unfold rolledOccurrence thisYearOccurrence
                  rw [if_neg hlt]
                by_cases hw : (Date.le today ⟨today.year, bd.month, bd.day⟩ &&
                    Date.le ⟨today.year, bd.month, bd.day⟩ (Date.addDays today 7)) = true
                · left
                  refine ⟨bd, rfl, ?_, ?_⟩
                  · unfold specInWindow; rw [hrolled]; exact hw
                  · simp [gbpwStep, hbd, hrep, hlt, hw] at h
                    rw [← h]
                    unfold specBucket
                    rw [hrolled]
                · right
                  refine ⟨?_, ?_⟩
                  · intro bd' hbd'
                    injection hbd' with h1
                    injection h1 with h2
                    subst h2
                    unfold specInWindow
                    rw [hrolled]
                    cases hb : (Date.le today ⟨today.year, bd.month, bd.day⟩ &&
                        Date.le ⟨today.year, bd.month, bd.day⟩ (Date.addDays today 7))
                    · rfl
                    · exact absurd hb hw
                  · simp [gbpwStep, hbd, hrep, hlt, hw] at h
                    exact h.symm

theorem gbpw_fold_char (today : Date) :
    ∀ (book : List Record) (acc m : List (String × List String)),
      List.foldlM (gbpwStep today) acc book = Except.ok m →
      ((∀ w n, (∃ vs, (w, vs) ∈ m ∧ n ∈ vs) ↔
         ((∃ vs, (w, vs) ∈ acc ∧ n ∈ vs) ∨
          ∃ r ∈ book, r.name = n ∧ ∃ bd, r.birthday = some (some bd) ∧
            specInWindow today bd = true ∧ w = specBucket today bd))
       ∧ ((∀ p ∈ acc, p.2 ≠ []) → ∀ p ∈ m, p.2 ≠ [])) := by
  intro book
  induction book with
  | nil =>
      intro acc m h
      have hacc : acc = m := by
        have h' : (Except.ok acc : Except String (List (String × List String))) =
            Except.ok m := h
        injection h'
      subst hacc
      constructor
      · intro w n; simp
      · exact fun h p hp => h p hp
  | cons r rs ih =>
      intro acc m h
      rw [List.foldlM_cons] at h
      cases hstep : gbpwStep today acc r with
      | error e => rw [hstep] at h; cases h
      | ok acc1 =>
          rw [hstep] at h
          have h' : List.foldlM (gbpwStep today) acc1 rs = Except.ok m := h
          obtain ⟨hiff, hne⟩ := ih acc1 m h'
          rcases gbpwStep_ok_char today acc r acc1 hstep with
            ⟨bd, hbd, hwin, hacc1⟩ | ⟨hnot, hacc1⟩
          · subst hacc1
            constructor
            · intro w n
              rw [hiff w n, bucketsAdd_mem acc (specBucket today bd) r.name w n]
              constructor
              · rintro ((hacc | ⟨hw, hn⟩) | hrs)
                · exact Or.inl hacc
                · exact Or.inr ⟨r, List.mem_cons_self r rs, hn.symm, bd, hbd, hwin, hw⟩
                · obtain ⟨r', hr', rest⟩ := hrs
                  exact Or.inr ⟨r', List.mem_cons_of_mem r hr', rest⟩
              · rintro (hacc | ⟨r', hr', hname, bd', hbd', hwin', hwk⟩)
                · exact Or.inl (Or.inl hacc)
                · rcases List.mem_cons.mp hr' with hre | hr'mem
                  · subst hre
                    rw [hbd] at hbd'
                    injection hbd' with h1
                    injection h1 with h2
                    subst h2
                    exact Or.inl (Or.inr ⟨hwk, hname.symm⟩)
                  · exact Or.inr ⟨r', hr'mem, hname, bd', hbd', hwin', hwk⟩
            · intro hacc p hp
              exact hne (bucketsAdd_nonempty acc (specBucket today bd) r.name hacc) p hp
          · subst hacc1
            constructor
            · intro w n
              rw [hiff w n]
              constructor
              · rintro (hacc | hrs)
                · exact Or.inl hacc
                · obtain ⟨r', h1, h2⟩ := hrs
                  exact Or.inr ⟨r', List.mem_cons_of_mem r h1, h2⟩
              · rintro (hacc | ⟨r', hr', hname, bd', hbd', hwin', hwk⟩)
                · exact Or.inl hacc
                · rcases List.mem_cons.mp hr' with hre | hr'mem
                  · subst hre
                    rw [hnot bd' hbd'] at hwin'
                    cases hwin'
                  · exact Or.inr ⟨r', hr'mem, hname, bd', hbd', hwin', hwk⟩
            · exact hne

/-- C1 — when `get_birthdays_per_week` returns a mapping, a contact's name
    appears in a bucket exactly when some record with that name has a
    birthday whose this-year occurrence, rolled to next year when already
    passed, lies within [today, today+7 days] inclusive and the bucket is
    the occurrence's weekday name with Saturday/Sunday mapped to "Monday";
    and no returned bucket is empty. -/
theorem birthdays_per_week_window_and_buckets :
    ∀ (book : List Record) (today : Date) (m : List (String × List String)),
      getBirthdaysPerWeek book today = Except.ok m →
      ((∀ w n, (∃ vs, (w, vs) ∈ m ∧ n ∈ vs) ↔
         (∃ r ∈ book, r.name = n ∧ ∃ bd, r.birthday = some (some bd) ∧
            specInWindow today bd = true ∧ w = specBucket today bd))
       ∧ (∀ p ∈ m, p.2 ≠ [])) := by
  intro book today m h
  obtain ⟨hiff, hne⟩ := gbpw_fold_char today book [] m h
  constructor
  · intro w n
    rw [hiff w n]
    simp
  · exact hne (by simp)

/-- Witness for C1 at a concrete book and date: with today = Fri 2024-06-07
    and Ann's birthday on June 10 (the following Monday), the returned
    mapping is exactly one nonempty "Monday" bucket holding "Ann". -/
theorem birthdays_per_week_window_and_buckets_witness :
    ((∀ w n, (∃ vs, (w, vs) ∈ [("Monday", ["Ann"])] ∧ n ∈ vs) ↔
       (∃ r ∈ ([⟨"Ann", ["1234567890"], some (some ⟨2000, 6, 10⟩)⟩] : List Record),
          r.name = n ∧ ∃ bd, r.birthday = some (some bd) ∧
            specInWindow ⟨2024, 6, 7⟩ bd = true ∧ w = specBucket ⟨2024, 6, 7⟩ bd))
     ∧ (∀ p ∈ ([("Monday", ["Ann"])] : List (String × List String)), p.2 ≠ [])) :=
  birthdays_per_week_window_and_buckets
    [⟨"Ann", ["1234567890"], some (some ⟨2000, 6, 10⟩)⟩] ⟨2024, 6, 7⟩
    [("Monday", ["Ann"])] rfl

theorem mem_updateFirst (name : String) (r' : Record) :
    ∀ (book : List Record) (x : Record), x ∈ updateFirst book name r' →
      x ∈ book ∨ x = r' := by
  intro book
  induction book with
  | nil => intro x hx; simp [updateFirst] at hx
  | cons y ys ih =>
      intro x hx
      have hdef : updateFirst (y :: ys) name r' =
          if y.name = name then r' :: ys else y :: updateFirst ys name r' := rfl
      by_cases hy : y.name = name
      · rw [hdef, if_pos hy] at hx
        rcases List.mem_cons.mp hx with h | h
        · exact Or.inr h
        · exact Or.inl (List.mem_cons_of_mem _ h)
      · rw [hdef, if_neg hy] at hx
        rcases List.mem_cons.mp hx with h | h
        · exact Or.inl (h ▸ List.mem_cons_self _ _)
        · rcases ih x h with h' | h'
          · exact Or.inl (List.mem_cons_of_mem _ h')
          · exact Or.inr h'

theorem mem_addRecord (book : List Record) (r x : Record) (hx : x ∈ addRecord book r) :
    x ∈ book ∨ x = r := by
  unfold addRecord at hx
  split at hx
  · rcases List.mem_map.mp hx with ⟨y, hy, hxy⟩
    by_cases hyn : y.name = r.name
    · rw [if_pos hyn] at hxy
      exact Or.inr hxy.symm
    · rw [if_neg hyn] at hxy
      exact Or.inl (hxy ▸ hy)
  · rcases List.mem_append.mp hx with h | h
    · exact Or.inl h
    · exact Or.inr (by simpa using h)

theorem loop_invariant_aux :
    ∀ book : List Record, LoopReachable book → ∀ r ∈ book, r.phones.length = 1 := by
  intro book hb
  induction hb with
  | empty => intro r hr; simp at hr
  | step today c b b' out hreach hok ih =>
      cases c with
      | add n p =>
          cases hph : phoneInit p with
          | error e => simp [runCmd, addContact, hph] at hok
          | ok ph =>
              simp only [runCmd, addContact, hph] at hok
              injection hok with h1
              have hb' : b' = addRecord b ⟨n, [ph], none⟩ :=
                (congrArg Prod.fst h1).symm
              subst hb'
              intro r hr
              rcases mem_addRecord b ⟨n, [ph], none⟩ r hr with hmem | heq
              · exact ih r hmem
              · rw [heq]
                rfl
      | change n p =>
          cases hf : findRecord b n with
          | none =>
              simp only [runCmd, changePhone, hf] at hok
              injection hok with h1
              have hb' : b' = b := (congrArg Prod.fst h1).symm
              subst hb'
              exact ih
          | some record =>
              cases hp : record.phones with
              | nil => simp [runCmd, changePhone, hf, hp] at hok
              | cons p0 ps =>
                  simp only [runCmd, changePhone, hf, hp] at hok
                  injection hok with h1
                  have hb' : b' = updateFirst b n
                      { record with phones := editPhone (p0 :: ps) p0 p } :=
                    (congrArg Prod.fst h1).symm
                  subst hb'
                  intro r hr
                  rcases mem_updateFirst n _ b r hr with hmem | heq
                  · exact ih r hmem
                  · rw [heq]
                    have hrec : record ∈ b := List.mem_of_find?_eq_some hf
                    have hlen := ih record hrec
                    rw [hp] at hlen
                    simpa [editPhone] using hlen
      | phone n =>
          cases hf : findRecord b n with
          | none =>
              simp only [runCmd, showPhone, hf] at hok
              injection hok with h1
              have hb' : b' = b := (congrArg Prod.fst h1).symm
              subst hb'
              exact ih
          | some record =>
              cases hp : record.phones with
              | nil => simp [runCmd, showPhone, hf, hp] at hok
              | cons p0 ps =>
                  simp only [runCmd, showPhone, hf, hp] at hok
                  injection hok with h1
                  have hb' : b' = b := (congrArg Prod.fst h1).symm
                  subst hb'
                  exact ih
      | addBirthday n bd =>
          cases hf : findRecord b n with
          | none =>
              simp only [runCmd, addBirthdayOp, hf] at hok
              injection hok with h1
              have hb' : b' = b := (congrArg Prod.fst h1).symm
              subst hb'
              exact ih
          | some record =>
              cases hbi : birthdayInit bd with
              | error e => simp [runCmd, addBirthdayOp, hf, hbi] at hok
              | ok bval =>
                  simp only [runCmd, addBirthdayOp, hf, hbi] at hok
                  injection hok with h1
                  have hb' : b' = updateFirst b n { record with birthday := some bval } :=
                    (congrArg Prod.fst h1).symm
                  subst hb'
                  intro r hr
                  rcases mem_updateFirst n _ b r hr with hmem | heq
                  · exact ih r hmem
                  · rw [heq]
                    have hrec : record ∈ b := List.mem_of_find?_eq_some hf
                    exact ih record hrec
      | showBirthday n =>
          cases hf : findRecord b n with
          | none =>
              simp only [runCmd, showBirthdayOp, hf] at hok
              injection hok with h1
              have hb' : b' = b := (congrArg Prod.fst h1).symm
              subst hb'
              exact ih
          | some record =>
              cases hbv : record.birthday with
              | none =>
                  simp only [runCmd, showBirthdayOp, hf, hbv] at hok
                  injection hok with h1
                  have hb' : b' = b := (congrArg Prod.fst h1).symm
                  subst hb'
                  exact ih
              | some bval =>
                  simp only [runCmd, showBirthdayOp, hf, hbv] at hok
                  injection hok with h1
                  have hb' : b' = b := (congrArg Prod.fst h1).symm
                  subst hb'
                  exact ih
      | birthdays =>
          cases hgb : getBirthdaysPerWeek b today with
          | error e => simp [runCmd, birthdaysThisWeek, hgb] at hok
          | ok mm =>
              simp only [runCmd, birthdaysThisWeek, hgb] at hok
              injection hok with h1
              have hb' : b' = b := (congrArg Prod.fst h1).symm
              subst hb'
              exact ih
      | all =>
          simp only [runCmd, listAllContacts] at hok
          injection hok with h1
          have hb' : b' = b := (congrArg Prod.fst h1).symm
          subst hb'
          exact ih
      | hello =>
          simp only [runCmd] at hok
          injection hok with h1
          have hb' : b' = b := (congrArg Prod.fst h1).symm
          subst hb'
          exact ih

/-- C9 — in every directory state reachable through the command loop, every
    record has exactly one phone, so the controller's first-phone accesses
    in `change` and `phone` cannot hit an empty phone list: both return
    normally on every found record. -/
theorem loop_states_have_one_phone :
    ∀ book : List Record, LoopReachable book →
      (∀ r ∈ book, r.phones.length = 1)
      ∧ (∀ name r, findRecord book name = some r →
          (∀ np, ∃ res, changePhone book name np = Except.ok res)
          ∧ (∃ res, showPhone book name = Except.ok res)) := by
  intro book hb
  refine ⟨loop_invariant_aux book hb, ?_⟩
  intro name r hf
  have hrmem : r ∈ book := List.mem_of_find?_eq_some hf
  have hlen := loop_invariant_aux book hb r hrmem
  cases hp : r.phones with
  | nil => rw [hp] at hlen; simp at hlen
  | cons p0 ps =>
      constructor
      · intro np
        refine ⟨(updateFirst book name { r with phones := editPhone (p0 :: ps) p0 np },
            ["Phone number changed successfully."]), ?_⟩
        simp [changePhone, hf, hp]
      · refine ⟨(book, ["Phone number for " ++ name ++ ": " ++ p0]), ?_⟩
        simp [showPhone, hf, hp]

/-- Witness for C9: the state reached by one successful `add` command. -/
theorem loop_states_have_one_phone_witness :
    (∀ r ∈ ([⟨"Ann", ["1234567890"], none⟩] : List Record), r.phones.length = 1)
    ∧ (∀ name r, findRecord [⟨"Ann", ["1234567890"], none⟩] name = some r →
        (∀ np, ∃ res, changePhone [⟨"Ann", ["1234567890"], none⟩] name np = Except.ok res)
        ∧ (∃ res, showPhone [⟨"Ann", ["1234567890"], none⟩] name = Except.ok res)) :=
  loop_states_have_one_phone [⟨"Ann", ["1234567890"], none⟩]
    (LoopReachable.step ⟨2024, 6, 7⟩ (Cmd.add "Ann" "1234567890") [] _
      ["Contact added successfully."] LoopReachable.empty rfl)

theorem digitChar_toNat (n : Nat) : (digitChar n).toNat = 48 + n % 10 := by
  unfold digitChar
  have h : n % 10 < 10 := Nat.mod_lt _ (by norm_num)
  generalize n % 10 = k at *
  interval_cases k <;> rfl

theorem isDig_digitChar (n : Nat) : isDig (digitChar n) = true := by
  have h : n % 10 < 10 := Nat.mod_lt _ (by norm_num)
  simp only [isDig, digitChar_toNat, Bool.and_eq_true, decide_eq_true_eq]
  omega

theorem digitVal_digitChar (n : Nat) : digitVal (digitChar n) = n % 10 := by
  simp [digitVal, digitChar_toNat]

theorem pyDigitVal_digitChar (n : Nat) : pyDigitVal (digitChar n) = n % 10 := by
  have h : n % 10 < 10 := Nat.mod_lt _ (by norm_num)
  unfold pyDigitVal
  rw [digitChar_toNat]
  rw [if_neg (by omega)]
  omega

theorem isDig_pyDecimalDigit (c : Char) (h : isDig c = true) :
    pyDecimalDigit c = true := by
  simp [pyDecimalDigit, h]

theorem pyDigitVal_ascii (c : Char) (h : isDig c = true) : pyDigitVal c = digitVal c := by
  simp only [isDig, Bool.and_eq_true, decide_eq_true_eq] at h
  have h2 : ¬ (1632 ≤ c.toNat) := by omega
  simp [pyDigitVal, digitVal, h2]

theorem pyDecimalDigit_ascii (c : Char) (h : c.toNat < 128) :
    pyDecimalDigit c = isDig c := by
  have h2 : ¬ (1632 ≤ c.toNat) := by omega
  simp [pyDecimalDigit, h2]

theorem matchDay2_pad (d : Nat) (rest : List Char) (h1 : 1 ≤ d) (h2 : d ≤ 31) :
    matchDay2 (digitChar (d / 10 % 10) :: digitChar (d % 10) :: rest) = some (d, rest) := by
  have hval : 10 * digitVal (digitChar (d / 10 % 10)) + digitVal (digitChar (d % 10)) = d := by
    simp only [digitVal_digitChar]
    omega
  have hvalP : 10 * pyDigitVal (digitChar (d / 10 % 10)) + pyDigitVal (digitChar (d % 10)) = d := by
    simp only [pyDigitVal_digitChar]
    omega
  simp [matchDay2, isDig_digitChar, hval, hvalP, h1, h2]

theorem matchMonth2_pad (m : Nat) (rest : List Char) (h1 : 1 ≤ m) (h2 : m ≤ 12) :
    matchMonth2 (digitChar (m / 10 % 10) :: digitChar (m % 10) :: rest) = some (m, rest) := by
  have hval : 10 * digitVal (digitChar (m / 10 % 10)) + digitVal (digitChar (m % 10)) = m := by
    simp only [digitVal_digitChar]
    omega
  simp [matchMonth2, isDig_digitChar, hval, h1, h2]

theorem matchYear4_pad (y : Nat) (hy : y ≤ 9999) :
    matchYear4 [digitChar (y / 1000 % 10), digitChar (y / 100 % 10),
      digitChar (y / 10 % 10), digitChar (y % 10)] = some y := by
  have hval : pyDigitsVal [digitChar (y / 1000 % 10), digitChar (y / 100 % 10),
      digitChar (y / 10 % 10), digitChar (y % 10)] = y := by
    simp only [pyDigitsVal, List.foldl, pyDigitVal_digitChar]
    omega
  have hdig : ∀ n : Nat, pyDecimalDigit (digitChar n) = true := fun n =>
    isDig_pyDecimalDigit _ (isDig_digitChar n)
  simp [matchYear4, hdig, hval]

/-- The character list of the zero-padded `DD.MM.YYYY` rendering. -/
theorem renderDMY_toList (d m y : Nat) :
    (pad2 d ++ "." ++ pad2 m ++ "." ++ pad4 y).toList =
      digitChar (d / 10 % 10) :: digitChar (d % 10) :: '.' ::
      digitChar (m / 10 % 10) :: digitChar (m % 10) :: '.' ::
      digitChar (y / 1000 % 10) :: digitChar (y / 100 % 10) ::
      digitChar (y / 10 % 10) :: digitChar (y % 10) :: [] := rfl

theorem parseDMY_pad (d m y : Nat) (hd1 : 1 ≤ d) (hd2 : d ≤ 31) (hm1 : 1 ≤ m)
    (hm2 : m ≤ 12) (hy : y ≤ 9999) :
    parseDMY (digitChar (d / 10 % 10) :: digitChar (d % 10) :: '.' ::
      digitChar (m / 10 % 10) :: digitChar (m % 10) :: '.' ::
      digitChar (y / 1000 % 10) :: digitChar (y / 100 % 10) ::
      digitChar (y / 10 % 10) :: digitChar (y % 10) :: []) = some (d, m, y) := by
  have hday := matchDay2_pad d ('.' :: digitChar (m / 10 % 10) :: digitChar (m % 10) :: '.' ::
      digitChar (y / 1000 % 10) :: digitChar (y / 100 % 10) ::
      digitChar (y / 10 % 10) :: digitChar (y % 10) :: []) hd1 hd2
  have hmonth := matchMonth2_pad m ('.' :: digitChar (y / 1000 % 10) ::
      digitChar (y / 100 % 10) :: digitChar (y / 10 % 10) :: digitChar (y % 10) :: []) hm1 hm2
  have hyear := matchYear4_pad y hy
  simp [parseDMY, parseFromDot, parseFromDot2, orElseO, matchDot, hday, hmonth, hyear]

/-- C6 — for every real calendar date, the zero-padded `DD.MM.YYYY` string
    parses back to exactly that date and rendering the stored date
    reproduces the same string: parse-then-format is the identity on
    two-digit-day/two-digit-month/four-digit-year date strings. -/
theorem birthday_roundtrip :
    ∀ dt : Date, dt.valid = true →
      birthdayInit (pad2 dt.day ++ "." ++ pad2 dt.month ++ "." ++ pad4 dt.year) =
        Except.ok (some dt)
      ∧ birthdayToStr (some dt) =
        pad2 dt.day ++ "." ++ pad2 dt.month ++ "." ++ pad4 dt.year := by
  intro dt hv
  have hv' := hv
  unfold Date.valid at hv'
  simp only [Bool.and_eq_true, decide_eq_true_eq] at hv'
  obtain ⟨⟨⟨⟨⟨hy1, hy2⟩, hm1⟩, hm2⟩, hd1⟩, hd2⟩ := hv'
  have hd31 : dt.day ≤ 31 := le_trans hd2 (daysInMonth_le_31 _ _)
  constructor
  · unfold birthdayInit
    rw [renderDMY_toList]
    rw [parseDMY_pad dt.day dt.month dt.year hd1 hd31 hm1 hm2 hy2]
    have hvdt : Date.valid ⟨dt.year, dt.month, dt.day⟩ = true := hv
    simp [hvdt]
  · rfl

/-- Witness for C6 at the concrete date Feb 29 2024 (a leap day). -/
theorem birthday_roundtrip_witness :
    birthdayInit (pad2 29 ++ "." ++ pad2 2 ++ "." ++ pad4 2024) =
      Except.ok (some ⟨2024, 2, 29⟩)
    ∧ birthdayToStr (some ⟨2024, 2, 29⟩) =
      pad2 29 ++ "." ++ pad2 2 ++ "." ++ pad4 2024 :=
  birthday_roundtrip ⟨2024, 2, 29⟩ (by decide)

theorem orElseO_some {α : Type} (a b : Option α) (x : α) (h : orElseO a b = some x) :
    a = some x ∨ (a = none ∧ b = some x) := by
  cases a with
  | some y => exact Or.inl (by simpa [orElseO] using h)
  | none => exact Or.inr ⟨rfl, by simpa [orElseO] using h⟩

theorem matchDot_inv (cs rest : List Char) (h : matchDot cs = some rest) :
    cs = '.' :: rest := by
  cases cs with
  | nil => simp [matchDot] at h
  | cons c cs' =>
      have hdef : matchDot (c :: cs') = if c = '.' then some cs' else none := rfl
      rw [hdef] at h
      split at h
      · rename_i hc
        injection h with h'
        rw [hc, h']
      · cases h

theorem matchDay2_inv (cs : List Char) (d : Nat) (rest : List Char)
    (h : matchDay2 cs = some (d, rest)) :
    ∃ c1 c2, cs = c1 :: c2 :: rest ∧ pyDecimalDigit c1 = true ∧
      pyDecimalDigit c2 = true ∧ pyDigitsVal [c1, c2] = d := by
  cases cs with
  | nil => exact Option.noConfusion h
  | cons c1 cs1 =>
      cases cs1 with
      | nil => exact Option.noConfusion h
      | cons c2 cs2 =>
          have hdef : matchDay2 (c1 :: c2 :: cs2) =
              if (isDig c1 && isDig c2 && (1 ≤ 10 * digitVal c1 + digitVal c2) &&
                    (10 * digitVal c1 + digitVal c2 ≤ 31)) ||
                  ((c1 = '1' || c1 = '2') && pyDecimalDigit c2) then
                some (10 * pyDigitVal c1 + pyDigitVal c2, cs2)
              else none := rfl
          rw [hdef] at h
          split at h
          · rename_i hcond
            injection h with hpair
            injection hpair with hv hrest
            subst hrest
            have hval : pyDigitsVal [c1, c2] = d := by
              simp only [pyDigitsVal, List.foldl]
              omega
            simp only [Bool.or_eq_true, Bool.and_eq_true, decide_eq_true_eq] at hcond
            rcases hcond with ⟨⟨⟨hd1, hd2⟩, _⟩, _⟩ | ⟨hc1, hc2⟩
            · exact ⟨c1, c2, rfl, isDig_pyDecimalDigit c1 hd1,
                isDig_pyDecimalDigit c2 hd2, hval⟩
            · have hc1' : pyDecimalDigit c1 = true := by
                rcases hc1 with hc1 | hc1 <;> rw [hc1] <;> rfl
              exact ⟨c1, c2, rfl, hc1', hc2, hval⟩
          · exact Option.noConfusion h

theorem matchDay1_inv (cs : List Char) (d : Nat) (rest : List Char)
    (h : matchDay1 cs = some (d, rest)) :
    ∃ c, cs = c :: rest ∧ isDig c = true ∧ digitsVal [c] = d := by
  cases cs with
  | nil => exact Option.noConfusion h
  | cons c cs' =>
      have hdef : matchDay1 (c :: cs') =
          if isDig c && (1 ≤ digitVal c) then some (digitVal c, cs') else none := rfl
      rw [hdef] at h
      split at h
      · rename_i hcond
        simp only [Bool.and_eq_true, decide_eq_true_eq] at hcond
        injection h with hpair
        injection hpair with hv hrest
        subst hrest
        exact ⟨c, rfl, hcond.1, by simp [digitsVal, List.foldl]; omega⟩
      · exact Option.noConfusion h

theorem matchMonth2_inv (cs : List Char) (m : Nat) (rest : List Char)
    (h : matchMonth2 cs = some (m, rest)) :
    ∃ c1 c2, cs = c1 :: c2 :: rest ∧ isDig c1 = true ∧ isDig c2 = true ∧
      digitsVal [c1, c2] = m := by
  cases cs with
  | nil => exact Option.noConfusion h
  | cons c1 cs1 =>
      cases cs1 with
      | nil => exact Option.noConfusion h
      | cons c2 cs2 =>
          have hdef : matchMonth2 (c1 :: c2 :: cs2) =
              if isDig c1 && isDig c2 && (1 ≤ 10 * digitVal c1 + digitVal c2) &&
                  (10 * digitVal c1 + digitVal c2 ≤ 12) then
                some (10 * digitVal c1 + digitVal c2, cs2)
              else none := rfl
          rw [hdef] at h
          split at h
          · rename_i hcond
            simp only [Bool.and_eq_true, decide_eq_true_eq] at hcond
            injection h with hpair
            injection hpair with hv hrest
            subst hrest
            exact ⟨c1, c2, rfl, hcond.1.1.1, hcond.1.1.2,
              by simp [digitsVal, List.foldl]; omega⟩
          · exact Option.noConfusion h

theorem matchMonth1_inv (cs : List Char) (m : Nat) (rest : List Char)
    (h : matchMonth1 cs = some (m, rest)) :
    ∃ c, cs = c :: rest ∧ isDig c = true ∧ digitsVal [c] = m := by
  cases cs with
  | nil => exact Option.noConfusion h
  | cons c cs' =>
      have hdef : matchMonth1 (c :: cs') =
          if isDig c && (1 ≤ digitVal c) then some (digitVal c, cs') else none := rfl
      rw [hdef] at h
      split at h
      · rename_i hcond
        simp only [Bool.and_eq_true, decide_eq_true_eq] at hcond
        injection h with hpair
        injection hpair with hv hrest
        subst hrest
        exact ⟨c, rfl, hcond.1, by simp [digitsVal, List.foldl]; omega⟩
      · exact Option.noConfusion h

theorem matchYear4_inv (cs : List Char) (y : Nat) (h : matchYear4 cs = some y) :
    cs.length = 4 ∧ (∀ c ∈ cs, pyDecimalDigit c = true) ∧ pyDigitsVal cs = y := by
  rcases cs with _ | ⟨c1, _ | ⟨c2, _ | ⟨c3, _ | ⟨c4, _ | ⟨c5, cs'⟩⟩⟩⟩⟩
  · exact Option.noConfusion h
  · exact Option.noConfusion h
  · exact Option.noConfusion h
  · exact Option.noConfusion h
  · have hdef : matchYear4 [c1, c2, c3, c4] =
        if pyDecimalDigit c1 && pyDecimalDigit c2 && pyDecimalDigit c3 &&
            pyDecimalDigit c4 then
          some (pyDigitsVal [c1, c2, c3, c4])
        else none := rfl
    rw [hdef] at h
    split at h
    · rename_i hcond
      simp only [Bool.and_eq_true] at hcond
      injection h with hy
      refine ⟨rfl, ?_, hy⟩
      intro c hc
      simp only [List.mem_cons, List.not_mem_nil, or_false] at hc
      rcases hc with rfl | rfl | rfl | rfl
      · exact hcond.1.1.1
      · exact hcond.1.1.2
      · exact hcond.1.2
      · exact hcond.2
    · exact Option.noConfusion h
  · exact Option.noConfusion h

theorem parseFromDot2_inv (d m : Nat) (cs : List Char) (d' m' y : Nat)
    (h : parseFromDot2 d m cs = some (d', m', y)) :
    d' = d ∧ m' = m ∧ ∃ ycs, cs = '.' :: ycs ∧ matchYear4 ycs = some y := by
  unfold parseFromDot2 at h
  cases hdot : matchDot cs with
  | none =>
      simp only [hdot] at h
      exact Option.noConfusion h
  | some cs4 =>
      simp only [hdot] at h
      cases hy4 : matchYear4 cs4 with
      | none =>
          simp only [hy4] at h
          exact Option.noConfusion h
      | some y0 =>
          simp only [hy4] at h
          injection h with hpair
          injection hpair with h1 hpair2
          injection hpair2 with h2 h3
          subst h1
          subst h2
          subst h3
          exact ⟨rfl, rfl, cs4, matchDot_inv cs cs4 hdot, hy4⟩

theorem parseFromDot_inv (d : Nat) (cs : List Char) (d' m y : Nat)
    (h : parseFromDot d cs = some (d', m, y)) :
    d' = d ∧ ∃ mcs ycs, cs = '.' :: (mcs ++ '.' :: ycs) ∧
      1 ≤ mcs.length ∧ mcs.length ≤ 2 ∧ (∀ c ∈ mcs, isDig c = true) ∧
      digitsVal mcs = m ∧ matchYear4 ycs = some y := by
  unfold parseFromDot at h
  cases hdot : matchDot cs with
  | none =>
      simp only [hdot] at h
      exact Option.noConfusion h
  | some cs2 =>
      simp only [hdot] at h
      have hcs : cs = '.' :: cs2 := matchDot_inv cs cs2 hdot
      rcases orElseO_some _ _ _ h with hA | ⟨_, hB⟩
      · cases hm2 : matchMonth2 cs2 with
        | none =>
            simp only [hm2] at hA
            exact Option.noConfusion hA
        | some pm =>
            obtain ⟨m2, cs3⟩ := pm
            simp only [hm2] at hA
            obtain ⟨hd', hm', ycs, hcs3, hy4⟩ := parseFromDot2_inv d m2 cs3 d' m y hA
            obtain ⟨c1, c2, hcs2, hc1, hc2, hval⟩ := matchMonth2_inv cs2 m2 cs3 hm2
            subst hm'
            refine ⟨hd', [c1, c2], ycs, ?_, by simp, by simp, ?_, hval, hy4⟩
            · rw [hcs, hcs2, hcs3]
              rfl
            · intro c hc
              simp only [List.mem_cons, List.not_mem_nil, or_false] at hc
              rcases hc with rfl | rfl
              · exact hc1
              · exact hc2
      · cases hm1 : matchMonth1 cs2 with
        | none =>
            simp only [hm1] at hB
            exact Option.noConfusion hB
        | some pm =>
            obtain ⟨m1, cs3⟩ := pm
            simp only [hm1] at hB
            obtain ⟨hd', hm', ycs, hcs3, hy4⟩ := parseFromDot2_inv d m1 cs3 d' m y hB
            obtain ⟨c, hcs2, hc, hval⟩ := matchMonth1_inv cs2 m1 cs3 hm1
            subst hm'
            refine ⟨hd', [c], ycs, ?_, by simp, by simp, ?_, hval, hy4⟩
            · rw [hcs, hcs2, hcs3]
              rfl
            · intro c' hc'
              simp only [List.mem_singleton] at hc'
              rw [hc']
              exact hc

theorem parseDMY_inv (cs : List Char) (d m y : Nat) (h : parseDMY cs = some (d, m, y)) :
    ∃ dcs mcs ycs, cs = dcs ++ '.' :: (mcs ++ '.' :: ycs) ∧
      1 ≤ dcs.length ∧ dcs.length ≤ 2 ∧ (∀ c ∈ dcs, pyDecimalDigit c = true) ∧
      pyDigitsVal dcs = d ∧
      1 ≤ mcs.length ∧ mcs.length ≤ 2 ∧ (∀ c ∈ mcs, isDig c = true) ∧ digitsVal mcs = m ∧
      ycs.length = 4 ∧ (∀ c ∈ ycs, pyDecimalDigit c = true) ∧ pyDigitsVal ycs = y := by
  unfold parseDMY at h
  rcases orElseO_some _ _ _ h with hA | ⟨_, hB⟩
  · cases hd2 : matchDay2 cs with
    | none => rw [hd2] at hA; cases hA
    | some pd =>
        obtain ⟨d2, cs1⟩ := pd
        rw [hd2] at hA
        obtain ⟨hd', mcs, ycs, hcs1, hml, hmu, hmdig, hmval, hy4⟩ :=
          parseFromDot_inv d2 cs1 d m y hA
        obtain ⟨c1, c2, hcs, hc1, hc2, hdval⟩ := matchDay2_inv cs d2 cs1 hd2
        obtain ⟨hylen, hydig, hyval⟩ := matchYear4_inv ycs y hy4
        subst hd'
        refine ⟨[c1, c2], mcs, ycs, ?_, by simp, by simp, ?_, hdval,
          hml, hmu, hmdig, hmval, hylen, hydig, hyval⟩
        · rw [hcs, hcs1]
          rfl
        · intro c hc
          simp only [List.mem_cons, List.not_mem_nil, or_false] at hc
          rcases hc with rfl | rfl
          · exact hc1
          · exact hc2
  · cases hd1 : matchDay1 cs with
    | none => rw [hd1] at hB; cases hB
    | some pd =>
        obtain ⟨d1, cs1⟩ := pd
        rw [hd1] at hB
        obtain ⟨hd', mcs, ycs, hcs1, hml, hmu, hmdig, hmval, hy4⟩ :=
          parseFromDot_inv d1 cs1 d m y hB
        obtain ⟨c, hcs, hc, hdval⟩ := matchDay1_inv cs d1 cs1 hd1
        obtain ⟨hylen, hydig, hyval⟩ := matchYear4_inv ycs y hy4
        subst hd'
        have hdval' : pyDigitsVal [c] = d := by
          have hp1 : pyDigitsVal [c] = pyDigitVal c := by simp [pyDigitsVal, List.foldl]
          have hp2 : digitsVal [c] = digitVal c := by simp [digitsVal, List.foldl]
          rw [hp1, pyDigitVal_ascii c hc, ← hp2, hdval]
        refine ⟨[c], mcs, ycs, ?_, by simp, by simp, ?_, hdval',
          hml, hmu, hmdig, hmval, hylen, hydig, hyval⟩
        · rw [hcs, hcs1]
          rfl
        · intro c' hc'
          simp only [List.mem_singleton] at hc'
          rw [hc']
          exact isDig_pyDecimalDigit c hc

/-- C5 counterexample — `"1.1.2024"` has a one-digit day and month, so under
    the claim's "two-digit day, two-digit month" shape the constructor must
    fail; in fact `strptime` accepts unpadded day and month and construction
    succeeds. -/
theorem birthday_counterexample :
    birthdayInit "1.1.2024" = Except.ok (some ⟨2024, 1, 1⟩)
    ∧ ∀ dcs mcs ycs : List Char,
        "1.1.2024".toList = dcs ++ '.' :: (mcs ++ '.' :: ycs) →
        ¬(dcs.length = 2 ∧ mcs.length = 2 ∧ ycs.length = 4) := by
  constructor
  · rfl
  · rintro dcs mcs ycs heq ⟨h1, h2, h3⟩
    have hL : ("1.1.2024".toList).length = 8 := rfl
    rw [heq] at hL
    simp only [List.length_append, List.length_cons, h1, h2, h3] at hL
    omega

theorem pyDigitsVal_ascii (l : List Char) (h : ∀ c ∈ l, isDig c = true) :
    pyDigitsVal l = digitsVal l := by
  unfold pyDigitsVal digitsVal
  suffices hgen : ∀ (l' : List Char) (a : Nat), (∀ c ∈ l', isDig c = true) →
      l'.foldl (fun a c => 10 * a + pyDigitVal c) a =
      l'.foldl (fun a c => 10 * a + digitVal c) a by
    exact hgen l 0 h
  intro l'
  induction l' with
  | nil => intro a _; rfl
  | cons c cs ih =>
      intro a hl
      simp only [List.foldl]
      rw [pyDigitVal_ascii c (hl c (List.mem_cons_self _ _))]
      exact ih _ (fun x hx => hl x (List.mem_cons_of_mem _ hx))

/-- C5 amended — for every nonempty ASCII string, Birthday construction
    fails with `InvalidFormat` unless the string is day.month.year with a
    one-or-two digit day, a one-or-two digit month and an exactly four-digit
    year whose values form a real calendar date (`strptime("%d.%m.%Y")`
    accepts unpadded day and month); the claim's concrete examples hold:
    "29.02.2024" succeeds while "29.02.2023" and "31.02.2024" fail.  Outside
    ASCII, `strptime`'s `\d` positions additionally accept non-ASCII Unicode
    decimal digits, e.g. a year written with Arabic-Indic digits. -/
theorem birthday_accepts_only_flexible_dates :
    (∀ (s : String) (ob : Option Date), (∀ c ∈ s.toList, c.toNat < 128) →
      s ≠ "" → birthdayInit s = Except.ok ob →
      ∃ dt, ob = some dt ∧ dt.valid = true ∧ flexShape s dt)
    ∧ birthdayInit "29.02.2024" = Except.ok (some ⟨2024, 2, 29⟩)
    ∧ birthdayInit "29.02.2023" = Except.error "Invalid birthday format. Use DD.MM.YYYY."
    ∧ birthdayInit "31.02.2024" = Except.error "Invalid birthday format. Use DD.MM.YYYY."
    ∧ birthdayInit "1.1.٢٠٢٤" = Except.ok (some ⟨2024, 1, 1⟩) := by
  refine ⟨?_, rfl, rfl, rfl, rfl⟩
  intro s ob hascii hne h
  unfold birthdayInit at h
  have hne0 : s.toList ≠ [] := by
    intro hnil
    apply hne
    cases s with
    | mk data => cases hnil; rfl
  have hne' : s.toList.isEmpty = false := by
    cases hI : s.toList.isEmpty
    · rfl
    · exact absurd (List.isEmpty_iff.mp hI) hne0
  rw [hne'] at h
  simp only [Bool.false_eq_true, if_false] at h
  cases hp : parseDMY s.toList with
  | none =>
      rw [hp] at h
      exact Except.noConfusion h
  | some trip =>
      obtain ⟨d, m, y⟩ := trip
      rw [hp] at h
      have h2 : (if Date.valid ⟨y, m, d⟩ = true then
          (Except.ok (some ⟨y, m, d⟩) : Except String (Option Date))
          else Except.error "Invalid birthday format. Use DD.MM.YYYY.") = Except.ok ob := h
      split at h2
      · rename_i hv
        injection h2 with h'
        obtain ⟨dcs, mcs, ycs, hsplit, hdl, hdu, hddig, hdval, hml, hmu, hmdig,
          hmval, hylen, hydig, hyval⟩ := parseDMY_inv s.toList d m y hp
        have hdascii : ∀ c ∈ dcs, c.toNat < 128 := fun c hc =>
          hascii c (by rw [hsplit]; exact List.mem_append_left _ hc)
        have hyascii : ∀ c ∈ ycs, c.toNat < 128 := fun c hc =>
          hascii c (by
            rw [hsplit]
            exact List.mem_append_right _ (List.mem_cons_of_mem _
              (List.mem_append_right _ (List.mem_cons_of_mem _ hc))))
        have hddig' : ∀ c ∈ dcs, isDig c = true := fun c hc => by
          rw [← pyDecimalDigit_ascii c (hdascii c hc)]
          exact hddig c hc
        have hydig' : ∀ c ∈ ycs, isDig c = true := fun c hc => by
          rw [← pyDecimalDigit_ascii c (hyascii c hc)]
          exact hydig c hc
        have hdval' : digitsVal dcs = d := by
          rw [← pyDigitsVal_ascii dcs hddig']
          exact hdval
        have hyval' : digitsVal ycs = y := by
          rw [← pyDigitsVal_ascii ycs hydig']
          exact hyval
        exact ⟨⟨y, m, d⟩, h'.symm, hv,
          dcs, mcs, ycs, hsplit, hdl, hdu, hddig', hdval', hml, hmu, hmdig, hmval,
          hylen, hydig', hyval'⟩
      · exact Except.noConfusion h2

/-- Witness for the amended C5 at the concrete accepted string "05.06.2024". -/
theorem birthday_accepts_only_flexible_dates_witness :
    ∃ dt, (some (⟨2024, 6, 5⟩ : Date) : Option Date) = some dt ∧ dt.valid = true ∧
      flexShape "05.06.2024" dt :=
  birthday_accepts_only_flexible_dates.1 "05.06.2024" (some ⟨2024, 6, 5⟩)
    (by decide) (by decide) rfl

end ContactBook
